import Mathlib

/-!
Verification of the resumable, retrying chunked transfer subsystem of the
Google Drive folder downloader (`src/GdriveDownload/GdriveDownloaderGUI.py`).

The definitions below are a shallow embedding of the Python source:
machine-level I/O (the local file, the remote byte stream, the progress and
log callbacks) is made explicit as state threaded through pure functions,
and the externally observable actions of the engine (writes to the staging
file, progress reports, backoff sleeps, the final rename, the integrity
warning) are recorded in an event trace.

Byte strings are `List Nat`; hashing (`hashlib.md5(...).hexdigest()`) is an
abstract function `List Nat → String` supplied as a parameter, since the
control flow under verification only ever compares digests for equality.
-/

/-! ## Configuration constants (lines 47-56 of the source) -/

def CHUNK_SIZE : Nat := 8 * 1024 * 1024

def MAX_CHUNK_RETRIES : Nat := 5

def MAX_FILE_RETRIES : Nat := 5

def INITIAL_BACKOFF : ℚ := 1

def BACKOFF_FACTOR : ℚ := 2

def MAX_BACKOFF_SECONDS : ℚ := 120

/-! ## Backoff Policy (`_safe_sleep_backoff`, lines 59-64)

The Python function computes a delay and sleeps for it; the embedding
returns the computed delay (the caller-side sleep is recorded as an event
by the retry loops below). -/

def safe_sleep_backoff_delay (attempt : Nat) (http_status : Option Nat) : ℚ :=
  let base := INITIAL_BACKOFF * BACKOFF_FACTOR ^ (attempt - 1)
  let base2 :=
    match http_status with
    | some s => if s = 429 ∨ (500 ≤ s ∧ s < 600) then base * 2 else base
    | none => base
  min base2 MAX_BACKOFF_SECONDS

/-! ## Fingerprint Comparator (`should_skip_binary_file`, lines 123-147)

`localFile = none` models a non-existent local path, `some content` an
existing file with those bytes.  `drive_size` is the integer-parsed size
field (`None` when absent or unparseable), `drive_md5` the `md5Checksum`
metadata field (`None` when the key is absent).  Python's truthiness test
`if drive_md5:` is `false` for the empty string, which the embedding keeps. -/

def should_skip_binary_file (md5h : List Nat → String)
    (localFile : Option (List Nat)) (drive_size : Option Nat)
    (drive_md5 : Option String) : Bool :=
  match localFile with
  | none => false
  | some content =>
    let sizeMatch : Bool :=
      match drive_size with
      | some n => content.length == n
      | none => false
    if sizeMatch then true
    else
      match drive_md5 with
      | some h => if h = "" then false else md5h content == h
      | none => false

/-! ## Drive URL/id extraction (`extract_file_id`, lines 94-104)

Strings are modelled as `List Char`.  `pyStrip` is Python's `str.strip()`:
`isPyWhitespace` is exactly the set of code points for which
`str.isspace()` holds (0x09-0x0D, 0x1C-0x20, NEL, NBSP, Ogham space mark,
the U+2000-200A spaces, line/paragraph separator, narrow no-break space,
medium mathematical space, ideographic space); `reSearchCapture marker s`
is `re.search(marker + r'([a-zA-Z0-9_-]+)', s)` for a literal `marker`:
it finds the leftmost position where the literal occurs followed by at
least one identifier character and returns the maximal such run. -/

def isDriveIdChar (c : Char) : Bool :=
  c.isAlpha || c.isDigit || c == '_' || c == '-'

def isPyWhitespace (c : Char) : Bool :=
  decide ((0x09 ≤ c.toNat ∧ c.toNat ≤ 0x0d) ∨
    (0x1c ≤ c.toNat ∧ c.toNat ≤ 0x20) ∨
    c.toNat = 0x85 ∨ c.toNat = 0xa0 ∨ c.toNat = 0x1680 ∨
    (0x2000 ≤ c.toNat ∧ c.toNat ≤ 0x200a) ∨
    c.toNat = 0x2028 ∨ c.toNat = 0x2029 ∨
    c.toNat = 0x202f ∨ c.toNat = 0x205f ∨ c.toNat = 0x3000)

def pyLstrip (l : List Char) : List Char := l.dropWhile isPyWhitespace

def pyRstrip (l : List Char) : List Char :=
  (l.reverse.dropWhile isPyWhitespace).reverse

def pyStrip (l : List Char) : List Char := pyRstrip (pyLstrip l)

def reSearchCapture (marker : List Char) : List Char → Option (List Char)
  | [] => none
  | c :: rest =>
    if marker.isPrefixOf (c :: rest) then
      if (((c :: rest).drop marker.length).takeWhile isDriveIdChar).isEmpty then
        reSearchCapture marker rest
      else some (((c :: rest).drop marker.length).takeWhile isDriveIdChar)
    else reSearchCapture marker rest

/-- `extract_file_id`: `some id` models a normal return, `none` models the
`ValueError` raise. -/
def extract_file_id (input : List Char) : Option (List Char) :=
  let s := pyStrip input
  if 10 ≤ s.length && s.all isDriveIdChar then some s
  else
    match reSearchCapture "/folders/".toList s with
    | some g => some g
    | none =>
      match reSearchCapture "/d/".toList s with
      | some g => some g
      | none =>
        match reSearchCapture "id=".toList s with
        | some g => some g
        | none => none

/-- The property "`s` contains the marker followed by at least one
identifier character" that characterises when one of the `re.search`
patterns of `extract_file_id` matches. -/
def containsMarker (marker s : List Char) : Prop :=
  ∃ u c v, s = u ++ marker ++ c :: v ∧ isDriveIdChar c = true

/-! ## Chunked Transfer Engine state and events

`download_file_to_path_with_retries` (lines 150-232) and
`export_google_workspace_file_with_retries` (lines 234-301) stream the
remote object into a staging `.part` file through
`MediaIoBaseDownload(fh, request, chunksize=CHUNK_SIZE)`, retrying failed
chunks and whole-file attempts.

`EngineState.file`/`EngineState.pos` are the staging file's content and the
open handle's position (`"r+b"` + `seek(0, SEEK_END)` when the file exists,
`"wb"` otherwise).  `chunkAttempt` and `lastPct` are the loop locals
`chunk_attempt` and `last_pct` (the latter starts at `-1`, hence `Int`). -/

structure EngineState where
  file : List Nat
  pos : Nat
  chunkAttempt : Nat
  lastPct : Int
deriving DecidableEq

/-- Observable actions of one engine invocation, in order of occurrence:
`openTemp resumed` is the `open(temp_path, mode)` at the top of a file
attempt (`resumed = true` for mode `"r+b"`), `writePart p l` a write of `l`
bytes at file position `p` into the staging file, `reportPct` a call of the
progress-percentage callback, `sleepBackoff d` a call of
`_safe_sleep_backoff` that sleeps `d` seconds, `replaceToFinal` the
`temp_path.replace(out_path)` rename, and `warnMd5Mismatch` the post-move
integrity warning log line. -/
inductive Ev where
  | openTemp (resumed : Bool)
  | writePart (pos len : Nat)
  | reportPct (pct : Nat)
  | sleepBackoff (delay : ℚ)
  | replaceToFinal
  | warnMd5Mismatch
deriving DecidableEq

/-- Outcome of one `downloader.next_chunk()` call of the simulated
transport: success, an `HttpError` with an optional parsed status code, or
a low-level `socket`/`OSError` failure. -/
inductive ChunkOutcome where
  | ok
  | httpErr (status : Option Nat)
  | netErr
deriving DecidableEq

/-- File write semantics at the handle position (the engine only ever
writes at end-of-file, where this is plain append). -/
def writeAt (file : List Nat) (pos : Nat) (bytes : List Nat) : List Nat :=
  file.take pos ++ bytes ++ file.drop (pos + bytes.length)

/-- `int(status.progress() * 100)` where `progress()` is
`delivered / total` (and `0.0` for a zero total). -/
def pctOf (pos total : Nat) : Nat :=
  if total = 0 then 0 else pos * 100 / total

/-- Modelled from the spec: one successful `next_chunk()` of the chunked
transfer abstraction (`MediaIoBaseDownload`), whose implementation is not
part of this repository.  Per §4.3/§9 of the spec the engine relies on the
abstraction's chunk cursor tracking how many bytes were already delivered
to the writer (the source comments this as "recreate downloader to resume
from file pointer"), so the cursor always equals the handle position
`s.pos`: the chunk delivers the next `CHUNK_SIZE` remote bytes from
`s.pos`, the write lands at `s.pos`, and the transfer is done when the
cursor reaches the remote size.  A successful chunk resets `chunk_attempt`
to `0` and reports `int(progress*100)` when it differs from `last_pct`. -/
def chunkOkStep (remote : List Nat) (s : EngineState) : EngineState × List Ev :=
  if (pctOf (s.pos + ((remote.drop s.pos).take CHUNK_SIZE).length)
        remote.length : Int) ≠ s.lastPct then
    (⟨writeAt s.file s.pos ((remote.drop s.pos).take CHUNK_SIZE),
        s.pos + ((remote.drop s.pos).take CHUNK_SIZE).length, 0,
        (pctOf (s.pos + ((remote.drop s.pos).take CHUNK_SIZE).length)
          remote.length : Int)⟩,
      [Ev.writePart s.pos ((remote.drop s.pos).take CHUNK_SIZE).length,
        Ev.reportPct (pctOf (s.pos + ((remote.drop s.pos).take CHUNK_SIZE).length)
          remote.length)])
  else
    (⟨writeAt s.file s.pos ((remote.drop s.pos).take CHUNK_SIZE),
        s.pos + ((remote.drop s.pos).take CHUNK_SIZE).length, 0, s.lastPct⟩,
      [Ev.writePart s.pos ((remote.drop s.pos).take CHUNK_SIZE).length])

/-- The `while not done` chunk loop (lines 179-212 / 258-290), driven by a
finite schedule of simulated transport outcomes.  `completed` is the loop
exiting with `done`, `raised` an exception escaping the loop
(`chunk_attempt > MAX_CHUNK_RETRIES` re-raises), and `stuck` the model
artifact of the schedule running out mid-loop.  The remaining schedule is
returned so that the file-level retry loop can continue consuming it. -/
inductive ChunkRes where
  | completed (s : EngineState)
  | raised (s : EngineState) (msg : String)
  | stuck (s : EngineState)
deriving DecidableEq

def ChunkRes.state : ChunkRes → EngineState
  | .completed s => s
  | .raised s _ => s
  | .stuck s => s

def chunkLoop (remote : List Nat) :
    List ChunkOutcome → EngineState → ChunkRes × List ChunkOutcome × List Ev
  | [], s => (ChunkRes.stuck s, [], [])
  | ChunkOutcome.ok :: rest, s =>
    let se := chunkOkStep remote s
    if remote.length ≤ se.1.pos then (ChunkRes.completed se.1, rest, se.2)
    else
      let r := chunkLoop remote rest se.1
      (r.1, r.2.1, se.2 ++ r.2.2)
  | ChunkOutcome.httpErr st :: rest, s =>
    let a := s.chunkAttempt + 1
    if MAX_CHUNK_RETRIES < a then
      (ChunkRes.raised ⟨s.file, s.pos, a, s.lastPct⟩ "HttpError", rest, [])
    else
      let r := chunkLoop remote rest ⟨s.file, s.pos, a, s.lastPct⟩
      (r.1, r.2.1, Ev.sleepBackoff (safe_sleep_backoff_delay a st) :: r.2.2)
  | ChunkOutcome.netErr :: rest, s =>
    let a := s.chunkAttempt + 1
    if MAX_CHUNK_RETRIES < a then
      (ChunkRes.raised ⟨s.file, s.pos, a, s.lastPct⟩ "NetworkError", rest, [])
    else
      let r := chunkLoop remote rest ⟨s.file, s.pos, a, s.lastPct⟩
      (r.1, r.2.1, Ev.sleepBackoff (safe_sleep_backoff_delay a none) :: r.2.2)

/-- Result of one whole engine call: `ok f` is a normal return with final
file content `f`, `raised msg` an exception propagating to the caller,
`stuck` the schedule-exhaustion model artifact. -/
inductive FileRes where
  | ok (file : List Nat)
  | raised (msg : String)
  | stuck
deriving DecidableEq

/-- Opening the staging file at the top of a file attempt (lines 170-173 /
249-252): mode `"r+b"` plus seek to end-of-file when it exists, `"wb"`
otherwise. -/
def openTempState : Option (List Nat) → EngineState
  | some c => ⟨c, c.length, 0, -1⟩
  | none => ⟨[], 0, 0, -1⟩

/-- The optional post-completion integrity check of lines 219-225: when an
`md5Checksum` was available and disagrees with the published file's hash, a
single warning is logged (and nothing else happens). -/
def warnEvsOf (md5h : List Nat → String) (driveMd5 : Option String)
    (f : List Nat) : List Ev :=
  match driveMd5 with
  | some h => if md5h f ≠ h then [Ev.warnMd5Mismatch] else []
  | none => []

/-- The `for file_attempt in range(1, MAX_FILE_RETRIES + 1)` retry loop
shared verbatim by lines 168-232 and 247-301 (the two copies differ only
in the post-completion md5 check, governed here by `driveMd5`, which the
export copy does not perform and the download copy runs when the
`md5Checksum` metadata is present).  `attempt` is `file_attempt` and
`remaining` the number of loop iterations left (`MAX_FILE_RETRIES + 1 -
attempt` at the entry call); on completion the staging file is renamed to
the final path, `100` is reported, and a hash disagreement only logs a
warning (lines 214-226). -/
def retryLoop (md5h : List Nat → String) (remote : List Nat)
    (driveMd5 : Option String) :
    Nat → Nat → Option (List Nat) → List ChunkOutcome → FileRes × List Ev
  | _, 0, _, _ => (FileRes.stuck, [])
  | attempt, remaining + 1, tempFile, sched =>
    let s0 := openTempState tempFile
    let openEv := Ev.openTemp tempFile.isSome
    match chunkLoop remote sched s0 with
    | (ChunkRes.completed s', _, evs) =>
      (FileRes.ok s'.file,
        openEv :: evs ++ Ev.replaceToFinal :: Ev.reportPct 100 ::
          warnEvsOf md5h driveMd5 s'.file)
    | (ChunkRes.raised s' msg, remSched, evs) =>
      if MAX_FILE_RETRIES ≤ attempt then (FileRes.raised msg, openEv :: evs)
      else
        let r2 := retryLoop md5h remote driveMd5 (attempt + 1) remaining
          (some s'.file) remSched
        (r2.1,
          openEv :: evs ++
            Ev.sleepBackoff (safe_sleep_backoff_delay attempt none) :: r2.2)
    | (ChunkRes.stuck _, _, evs) => (FileRes.stuck, openEv :: evs)

/-- The `id,name,mimeType,size,md5Checksum` metadata dictionary; `none`
fields model absent keys (`file_meta['id']` raises `KeyError` when `id` is
absent, `file_meta.get(...)` yields `None`). -/
structure FileMeta where
  id : Option String
  name : Option String
  mimeType : Option String
  size : Option Nat
  md5Checksum : Option String
deriving DecidableEq

/-- `download_file_to_path_with_retries` (lines 150-232).  `localFinal` is
the content of `out_path` if it already exists, `tempFile` the content of
the `.part` staging file if it already exists, `remote` the remote object's
bytes and `sched` the simulated transport's outcome schedule. -/
def download_file_to_path_with_retries (md5h : List Nat → String)
    (meta : FileMeta) (localFinal tempFile : Option (List Nat))
    (remote : List Nat) (sched : List ChunkOutcome) : FileRes × List Ev :=
  match meta.id with
  | none => (FileRes.raised "KeyError: id", [])
  | some _ =>
    if should_skip_binary_file md5h localFinal meta.size meta.md5Checksum then
      (FileRes.ok (localFinal.getD []), [Ev.reportPct 100])
    else
      retryLoop md5h remote meta.md5Checksum 1 MAX_FILE_RETRIES tempFile sched

/-- `export_google_workspace_file_with_retries` (lines 234-301): same loop,
but the pre-transfer skip is `out_path.exists() and not
FORCE_REEXPORT_NATIVE` (`force` models the global toggle), no metadata size
or md5 is consulted, and there is no post-completion integrity check. -/
def export_google_workspace_file_with_retries (md5h : List Nat → String)
    (meta : FileMeta) (force : Bool) (localFinal tempFile : Option (List Nat))
    (remote : List Nat) (sched : List ChunkOutcome) : FileRes × List Ev :=
  match meta.id with
  | none => (FileRes.raised "KeyError: id", [])
  | some _ =>
    if localFinal.isSome && !force then
      (FileRes.ok (localFinal.getD []), [Ev.reportPct 100])
    else
      retryLoop md5h remote none 1 MAX_FILE_RETRIES tempFile sched

/-- Percentage values delivered to the progress callback, in order. -/
def pctsOf (evs : List Ev) : List Nat :=
  evs.filterMap fun e =>
    match e with
    | Ev.reportPct p => some p
    | _ => none

def isOpenEv : Ev → Bool
  | Ev.openTemp _ => true
  | _ => false

def isSleepEv : Ev → Bool
  | Ev.sleepBackoff _ => true
  | _ => false

def isReplaceEv : Ev → Bool
  | Ev.replaceToFinal => true
  | _ => false

/-! ## Folder Walker (`_download_folder_contents`, lines 311-344)

The remote hierarchy is a tree of listing entries (`id`, `name`,
`mimeType`, children).  `DriveEnv` packages the opaque collaborators of one
walk: the metadata service (which can raise), the remote bytes, the
simulated transport schedule and the pre-existing local files per entry id,
the hash function, and the `FORCE_REEXPORT_NATIVE` toggle. -/

inductive DriveItem where
  | mk (id name mimeType : String) (children : List DriveItem)

def DriveItem.id : DriveItem → String
  | .mk i _ _ _ => i

def DriveItem.name : DriveItem → String
  | .mk _ n _ _ => n

structure DriveEnv where
  metaOf : String → Except String FileMeta
  remoteOf : String → List Nat
  schedOf : String → List ChunkOutcome
  localFinalOf : String → Option (List Nat)
  tempOf : String → Option (List Nat)
  md5h : List Nat → String
  force : Bool

/-- One ledger entry `{'id': item_id, 'name': name, 'error': str(e)}`
appended to `failed_items` (line 343). -/
structure FailureRecord where
  id : String
  name : String
  error : String
deriving DecidableEq

/-- The mime-type dispatch of lines 322-338 for a non-folder child: Google
Docs/Sheets/Slides go through the export path, everything else through the
plain download path. -/
def dispatch_child_transfer (env : DriveEnv) (i : String) (meta : FileMeta) :
    FileRes × List Ev :=
  if meta.mimeType = some "application/vnd.google-apps.document" ∨
      meta.mimeType = some "application/vnd.google-apps.spreadsheet" ∨
      meta.mimeType = some "application/vnd.google-apps.presentation" then
    export_google_workspace_file_with_retries env.md5h meta env.force
      (env.localFinalOf i) (env.tempOf i) (env.remoteOf i) (env.schedOf i)
  else
    download_file_to_path_with_retries env.md5h meta
      (env.localFinalOf i) (env.tempOf i) (env.remoteOf i) (env.schedOf i)

/-! `_download_folder_contents`: `download_child` is the `try` body for one
child entry together with the per-child `except` handler, and
`download_folder_contents` the `for item in list_folder_children(...)`
loop.  Each returns the failure-ledger records appended and the ids of all
entries attempted (in walk order); a folder child recurses, and any error
from processing one child yields exactly one record while the loop goes on
with the remaining siblings. -/

mutual

def download_child (env : DriveEnv) : DriveItem → List FailureRecord × List String
  | DriveItem.mk i nm _ children =>
    match env.metaOf i with
    | Except.error msg => ([⟨i, nm, msg⟩], [])
    | Except.ok meta =>
      if meta.mimeType = some "application/vnd.google-apps.folder" then
        download_folder_contents env children
      else
        match (dispatch_child_transfer env i meta).1 with
        | FileRes.ok _ => ([], [])
        | FileRes.raised msg => ([⟨i, nm, msg⟩], [])
        | FileRes.stuck => ([⟨i, nm, "model: schedule exhausted"⟩], [])

def download_folder_contents (env : DriveEnv) :
    List DriveItem → List FailureRecord × List String
  | [] => ([], [])
  | item :: rest =>
    let r1 := download_child env item
    let r2 := download_folder_contents env rest
    (r1.1 ++ r2.1, item.id :: (r1.2 ++ r2.2))

end

/-! ## Concrete scenario environments used by the walker theorems -/

/-- A walk environment whose entry `"bad"` hits a permission-denied
(HTTP 403) transport error on every chunk while `"good"` downloads
normally. -/
def envPermDenied : DriveEnv where
  metaOf := fun i => Except.ok ⟨some i, some i, some "text/plain", none, none⟩
  remoteOf := fun _ => [7]
  schedOf := fun i =>
    if i = "bad" then List.replicate 30 (ChunkOutcome.httpErr (some 403))
    else [ChunkOutcome.ok]
  localFinalOf := fun _ => none
  tempOf := fun _ => none
  md5h := fun _ => "m"
  force := false

/-- A walk environment whose entry `"bad"` exhausts `MAX_FILE_RETRIES`
through persistent server errors (HTTP 500) while `"good"` downloads
normally. -/
def envExhaust : DriveEnv where
  metaOf := fun i => Except.ok ⟨some i, some i, some "text/plain", none, none⟩
  remoteOf := fun _ => [7]
  schedOf := fun i =>
    if i = "bad" then List.replicate 30 (ChunkOutcome.httpErr (some 500))
    else [ChunkOutcome.ok]
  localFinalOf := fun _ => none
  tempOf := fun _ => none
  md5h := fun _ => "m"
  force := false

/-! ## Theorems -/

/-- The status codes for which `_safe_sleep_backoff` doubles the base
delay (rate limiting or any server error). -/
def doublingStatus : Option Nat → Prop
  | some s => s = 429 ∨ (500 ≤ s ∧ s < 600)
  | none => False

instance : DecidablePred doublingStatus := fun s => by
  cases s <;> simp [doublingStatus] <;> infer_instance

/-- C8: for every attempt number `n ≥ 1` and optional transport status
`s`, the backoff delay equals
`min (initialBackoff * backoffFactor^(n-1) * d) maxBackoff` with `d = 2`
for status 429 or 5xx and `d = 1` otherwise, and is never greater than the
configured maximum. -/
theorem claim_C8 (n : Nat) (_hn : 1 ≤ n) (s : Option Nat) :
    safe_sleep_backoff_delay n s =
      min (INITIAL_BACKOFF * BACKOFF_FACTOR ^ (n - 1) *
        (if doublingStatus s then 2 else 1)) MAX_BACKOFF_SECONDS ∧
    safe_sleep_backoff_delay n s ≤ MAX_BACKOFF_SECONDS := by
  constructor
  · unfold safe_sleep_backoff_delay
    cases s with
    | none => simp [doublingStatus]
    | some c =>
      by_cases h : c = 429 ∨ (500 ≤ c ∧ c < 600)
      · simp [doublingStatus, h]
      · simp [doublingStatus, h]
  · unfold safe_sleep_backoff_delay
    cases s <;> simp [min_le_right]

theorem claim_C8_witness :
    (1 ≤ 2 ∧
      safe_sleep_backoff_delay 2 (some 429) =
        min (INITIAL_BACKOFF * BACKOFF_FACTOR ^ (2 - 1) *
          (if doublingStatus (some 429) then 2 else 1)) MAX_BACKOFF_SECONDS ∧
      safe_sleep_backoff_delay 2 (some 429) ≤ MAX_BACKOFF_SECONDS) :=
  ⟨by norm_num, claim_C8 2 (by norm_num) (some 429)⟩

/-- C6: `shouldSkip` returns false when the local file is absent; else
true when the remote size is present and equals the local byte length;
else true when the remote hash is present and equals the local content's
hash (computed with the same algorithm); else false.  The hypothesis that
digests are never the empty string reflects `hexdigest()` always producing
32 characters. -/
theorem claim_C6 (md5h : List Nat → String) (hmd5 : ∀ bs, md5h bs ≠ "")
    (localFile : Option (List Nat)) (drive_size : Option Nat)
    (drive_md5 : Option String) :
    should_skip_binary_file md5h localFile drive_size drive_md5 =
      match localFile with
      | none => false
      | some c => (drive_size == some c.length) || (drive_md5 == some (md5h c)) := by
  cases localFile with
  | none => rfl
  | some c =>
    show should_skip_binary_file md5h (some c) drive_size drive_md5 =
      ((drive_size == some c.length) || (drive_md5 == some (md5h c)))
    rw [Bool.eq_iff_iff]
    cases drive_size with
    | none =>
      cases drive_md5 with
      | none => simp [should_skip_binary_file]
      | some h =>
        by_cases he : h = ""
        · subst he
          simp [should_skip_binary_file]
          intro hc
          exact hmd5 c hc.symm
        · simp [should_skip_binary_file, he]
          exact eq_comm
    | some n =>
      by_cases hs : c.length = n
      · simp [should_skip_binary_file, hs]
      · cases drive_md5 with
        | none => simp [should_skip_binary_file, hs, Ne.symm hs]
        | some h =>
          by_cases he : h = ""
          · subst he
            simp [should_skip_binary_file, hs, Ne.symm hs]
            intro hc
            exact hmd5 c hc.symm
          · simp [should_skip_binary_file, hs, Ne.symm hs, he]
            exact eq_comm

theorem claim_C6_witness :
    should_skip_binary_file (fun _ => "d41d8cd98f00b204e9800998ecf8427e")
      (some [1, 2, 3]) (some 3) none = true :=
  (claim_C6 (fun _ => "d41d8cd98f00b204e9800998ecf8427e")
    (fun _ => (by decide : ("d41d8cd98f00b204e9800998ecf8427e" : String) ≠ ""))
    (some [1, 2, 3]) (some 3) none).trans (by decide)

/-! ### Helper lemmas for `extract_file_id` (claim C10) -/

lemma pyRstrip_isPrefix (t : List Char) : pyRstrip t <+: t := by
  rw [← List.reverse_suffix]
  unfold pyRstrip
  rw [List.reverse_reverse]
  exact List.dropWhile_suffix _

lemma pyStrip_infix (l : List Char) : pyStrip l <:+: l := by
  have h1 : pyLstrip l <:+ l := List.dropWhile_suffix _
  have h2 := pyRstrip_isPrefix (pyLstrip l)
  exact (h2.isInfix).trans h1.isInfix

lemma reSearchCapture_some {marker : List Char} :
    ∀ {s r : List Char}, reSearchCapture marker s = some r →
      r ≠ [] ∧ r.all isDriveIdChar = true ∧ r <:+: s := by
  intro s
  induction s with
  | nil => intro r h; simp [reSearchCapture] at h
  | cons c rest ih =>
    intro r h
    simp only [reSearchCapture] at h
    by_cases hp : marker.isPrefixOf (c :: rest)
    · rw [if_pos hp] at h
      by_cases he : (((c :: rest).drop marker.length).takeWhile isDriveIdChar).isEmpty
      · rw [if_pos he] at h
        obtain ⟨h1, h2, h3⟩ := ih h
        exact ⟨h1, h2, List.infix_cons h3⟩
      · rw [if_neg he] at h
        have hr : ((c :: rest).drop marker.length).takeWhile isDriveIdChar = r :=
          Option.some.inj h
        refine ⟨?_, ?_, ?_⟩
        · intro hnil
          rw [hr, hnil] at he
          exact he rfl
        · rw [← hr]
          exact List.all_eq_true.mpr fun x hx => List.mem_takeWhile_imp hx
        · rw [← hr]
          have p1 := List.takeWhile_prefix (l := (c :: rest).drop marker.length)
            (p := isDriveIdChar)
          have p2 := List.drop_suffix marker.length (c :: rest)
          exact p1.isInfix.trans p2.isInfix
    · rw [if_neg hp] at h
      obtain ⟨h1, h2, h3⟩ := ih h
      exact ⟨h1, h2, List.infix_cons h3⟩

lemma reSearchCapture_contains {marker : List Char} :
    ∀ {s r : List Char}, reSearchCapture marker s = some r →
      containsMarker marker s := by
  intro s
  induction s with
  | nil => intro r h; simp [reSearchCapture] at h
  | cons c rest ih =>
    intro r h
    simp only [reSearchCapture] at h
    by_cases hp : marker.isPrefixOf (c :: rest)
    · rw [if_pos hp] at h
      by_cases he : (((c :: rest).drop marker.length).takeWhile isDriveIdChar).isEmpty
      · rw [if_pos he] at h
        obtain ⟨u, d, v, heq, hd⟩ := ih h
        exact ⟨c :: u, d, v, by simp [heq], hd⟩
      · rw [if_neg he] at h
        obtain ⟨t, ht⟩ := List.isPrefixOf_iff_prefix.mp hp
        have hdrop : (c :: rest).drop marker.length = t := by
          rw [← ht]; exact List.drop_left _ _
        rw [hdrop] at he
        cases t with
        | nil => simp at he
        | cons d v =>
          by_cases hd : isDriveIdChar d
          · exact ⟨[], d, v, by simpa using ht.symm, hd⟩
          · rw [List.takeWhile_cons_of_neg (by simpa using hd)] at he
            simp at he
    · rw [if_neg hp] at h
      obtain ⟨u, d, v, heq, hd⟩ := ih h
      exact ⟨c :: u, d, v, by simp [heq], hd⟩

lemma reSearchCapture_isSome_of_contains {marker : List Char} :
    ∀ (u : List Char) {d : Char} {v : List Char}, isDriveIdChar d = true →
      (reSearchCapture marker (u ++ marker ++ d :: v)).isSome = true := by
  intro u
  induction u with
  | nil =>
    intro d v hd
    cases hm : marker with
    | nil =>
      simp only [List.nil_append, reSearchCapture, List.isPrefixOf, if_true,
        List.length_nil, List.drop_zero]
      rw [List.takeWhile_cons_of_pos hd]
      simp
    | cons m0 m' =>
      have hshape : ([] : List Char) ++ (m0 :: m') ++ d :: v
          = m0 :: (m' ++ d :: v) := by simp
      rw [hshape]
      simp only [reSearchCapture]
      have hp : (m0 :: m').isPrefixOf (m0 :: (m' ++ d :: v)) = true :=
        List.isPrefixOf_iff_prefix.mpr ⟨d :: v, by simp⟩
      rw [if_pos hp]
      have hdrop : (m0 :: (m' ++ d :: v)).drop (m0 :: m').length = d :: v := by
        rw [show m0 :: (m' ++ d :: v) = (m0 :: m') ++ d :: v by simp]
        exact List.drop_left _ _
      rw [hdrop, List.takeWhile_cons_of_pos hd]
      simp
  | cons a u' ih =>
    intro d v hd
    have hshape : (a :: u') ++ marker ++ d :: v = a :: (u' ++ marker ++ d :: v) := by
      simp
    rw [hshape]
    simp only [reSearchCapture]
    by_cases hp : marker.isPrefixOf (a :: (u' ++ marker ++ d :: v))
    · rw [if_pos hp]
      by_cases he : (((a :: (u' ++ marker ++ d :: v)).drop
          marker.length).takeWhile isDriveIdChar).isEmpty
      · rw [if_pos he]
        exact ih hd
      · rw [if_neg he]
        rfl
    · rw [if_neg hp]
      exact ih hd

lemma reSearchCapture_eq_none_iff {marker s : List Char} :
    reSearchCapture marker s = none ↔ ¬containsMarker marker s := by
  constructor
  · intro h hc
    obtain ⟨u, d, v, rfl, hd⟩ := hc
    have hs := @reSearchCapture_isSome_of_contains marker u d v hd
    rw [h] at hs
    simp at hs
  · intro hnc
    cases heq : reSearchCapture marker s with
    | none => rfl
    | some r => exact absurd (reSearchCapture_contains heq) hnc

/-- C10: `extract_file_id` either returns a non-empty string of characters
`[a-zA-Z0-9_-]` occurring in the input, or raises `ValueError`; and it
raises exactly when the stripped input neither is a bare identifier of at
least 10 such characters nor contains one of the markers
`/folders/<id>`, `/d/<id>`, `id=<id>`. -/
theorem claim_C10 (input : List Char) :
    (∀ r, extract_file_id input = some r →
        r ≠ [] ∧ r.all isDriveIdChar = true ∧ r <:+: input) ∧
    (extract_file_id input = none ↔
      ¬(10 ≤ (pyStrip input).length ∧ (pyStrip input).all isDriveIdChar = true) ∧
      ¬containsMarker "/folders/".toList (pyStrip input) ∧
      ¬containsMarker "/d/".toList (pyStrip input) ∧
      ¬containsMarker "id=".toList (pyStrip input)) := by
  have hstrip := pyStrip_infix input
  unfold extract_file_id
  by_cases hbare : 10 ≤ (pyStrip input).length ∧
      (pyStrip input).all isDriveIdChar = true
  · rw [if_pos (by simp [hbare.1, hbare.2])]
    constructor
    · intro r hr
      obtain rfl : pyStrip input = r := Option.some.inj hr
      refine ⟨?_, hbare.2, hstrip⟩
      intro hnil
      rw [hnil] at hbare
      simp at hbare
    · constructor
      · intro h; exact absurd h (by simp)
      · intro h; exact absurd hbare h.1
  · rw [if_neg (by
      intro hb
      rw [Bool.and_eq_true, decide_eq_true_eq] at hb
      exact hbare ⟨hb.1, hb.2⟩)]
    cases h1 : reSearchCapture "/folders/".toList (pyStrip input) with
    | some g =>
      constructor
      · intro r hr
        obtain rfl : g = r := Option.some.inj hr
        obtain ⟨hn, ha, hi⟩ := reSearchCapture_some h1
        exact ⟨hn, ha, hi.trans hstrip⟩
      · constructor
        · intro h; exact absurd h (by simp)
        · intro h
          exact absurd (reSearchCapture_contains h1) h.2.1
    | none =>
      cases h2 : reSearchCapture "/d/".toList (pyStrip input) with
      | some g =>
        constructor
        · intro r hr
          obtain rfl : g = r := Option.some.inj hr
          obtain ⟨hn, ha, hi⟩ := reSearchCapture_some h2
          exact ⟨hn, ha, hi.trans hstrip⟩
        · constructor
          · intro h; exact absurd h (by simp)
          · intro h
            exact absurd (reSearchCapture_contains h2) h.2.2.1
      | none =>
        cases h3 : reSearchCapture "id=".toList (pyStrip input) with
        | some g =>
          constructor
          · intro r hr
            obtain rfl : g = r := Option.some.inj hr
            obtain ⟨hn, ha, hi⟩ := reSearchCapture_some h3
            exact ⟨hn, ha, hi.trans hstrip⟩
          · constructor
            · intro h; exact absurd h (by simp)
            · intro h
              exact absurd (reSearchCapture_contains h3) h.2.2.2
        | none =>
          refine ⟨fun r hr => by simp at hr, ?_⟩
          constructor
          · intro _
            exact ⟨hbare, reSearchCapture_eq_none_iff.mp h1,
              reSearchCapture_eq_none_iff.mp h2, reSearchCapture_eq_none_iff.mp h3⟩
          · intro _; rfl

theorem claim_C10_witness :
    "abc123xyz".toList ≠ [] ∧
      "abc123xyz".toList.all isDriveIdChar = true ∧
      "abc123xyz".toList <:+: "x /d/abc123xyz".toList :=
  (claim_C10 "x /d/abc123xyz".toList).1 "abc123xyz".toList (by decide)

/-! ### Step lemmas for the chunk loop -/

lemma chunkLoop_cons_ok (remote : List Nat) (rest : List ChunkOutcome)
    (s : EngineState) :
    chunkLoop remote (ChunkOutcome.ok :: rest) s =
      if remote.length ≤ (chunkOkStep remote s).1.pos then
        (ChunkRes.completed (chunkOkStep remote s).1, rest, (chunkOkStep remote s).2)
      else
        ((chunkLoop remote rest (chunkOkStep remote s).1).1,
          (chunkLoop remote rest (chunkOkStep remote s).1).2.1,
          (chunkOkStep remote s).2 ++
            (chunkLoop remote rest (chunkOkStep remote s).1).2.2) := rfl

lemma chunkLoop_httpErr_raise (remote : List Nat) (st : Option Nat)
    (rest : List ChunkOutcome) (s : EngineState)
    (h : MAX_CHUNK_RETRIES < s.chunkAttempt + 1) :
    chunkLoop remote (ChunkOutcome.httpErr st :: rest) s =
      (ChunkRes.raised ⟨s.file, s.pos, s.chunkAttempt + 1, s.lastPct⟩ "HttpError",
        rest, []) := by
  simp only [chunkLoop]
  rw [if_pos h]

lemma chunkLoop_httpErr_continue (remote : List Nat) (st : Option Nat)
    (rest : List ChunkOutcome) (s : EngineState)
    (h : ¬MAX_CHUNK_RETRIES < s.chunkAttempt + 1) :
    chunkLoop remote (ChunkOutcome.httpErr st :: rest) s =
      ((chunkLoop remote rest ⟨s.file, s.pos, s.chunkAttempt + 1, s.lastPct⟩).1,
        (chunkLoop remote rest ⟨s.file, s.pos, s.chunkAttempt + 1, s.lastPct⟩).2.1,
        Ev.sleepBackoff (safe_sleep_backoff_delay (s.chunkAttempt + 1) st) ::
          (chunkLoop remote rest ⟨s.file, s.pos, s.chunkAttempt + 1, s.lastPct⟩).2.2) := by
  simp only [chunkLoop]
  rw [if_neg h]

lemma chunkLoop_netErr_raise (remote : List Nat) (rest : List ChunkOutcome)
    (s : EngineState) (h : MAX_CHUNK_RETRIES < s.chunkAttempt + 1) :
    chunkLoop remote (ChunkOutcome.netErr :: rest) s =
      (ChunkRes.raised ⟨s.file, s.pos, s.chunkAttempt + 1, s.lastPct⟩ "NetworkError",
        rest, []) := by
  simp only [chunkLoop]
  rw [if_pos h]

lemma chunkLoop_netErr_continue (remote : List Nat) (rest : List ChunkOutcome)
    (s : EngineState) (h : ¬MAX_CHUNK_RETRIES < s.chunkAttempt + 1) :
    chunkLoop remote (ChunkOutcome.netErr :: rest) s =
      ((chunkLoop remote rest ⟨s.file, s.pos, s.chunkAttempt + 1, s.lastPct⟩).1,
        (chunkLoop remote rest ⟨s.file, s.pos, s.chunkAttempt + 1, s.lastPct⟩).2.1,
        Ev.sleepBackoff (safe_sleep_backoff_delay (s.chunkAttempt + 1) none) ::
          (chunkLoop remote rest ⟨s.file, s.pos, s.chunkAttempt + 1, s.lastPct⟩).2.2) := by
  simp only [chunkLoop]
  rw [if_neg h]

lemma chunkOkStep_pos (remote : List Nat) (s : EngineState) :
    (chunkOkStep remote s).1.pos =
      s.pos + ((remote.drop s.pos).take CHUNK_SIZE).length := by
  unfold chunkOkStep
  split <;> rfl

lemma chunkOkStep_file (remote : List Nat) (s : EngineState) :
    (chunkOkStep remote s).1.file =
      writeAt s.file s.pos ((remote.drop s.pos).take CHUNK_SIZE) := by
  unfold chunkOkStep
  split <;> rfl

lemma chunkOkStep_chunkAttempt (remote : List Nat) (s : EngineState) :
    (chunkOkStep remote s).1.chunkAttempt = 0 := by
  unfold chunkOkStep
  split <;> rfl

lemma chunkOkStep_evs (remote : List Nat) (s : EngineState) :
    ∀ e ∈ (chunkOkStep remote s).2,
      (∃ l, e = Ev.writePart s.pos l) ∨ ∃ p, e = Ev.reportPct p := by
  unfold chunkOkStep
  split <;> intro e he <;> simp at he
  · rcases he with h | h <;> simp [h]
  · simp [he]

lemma writeAt_eof (file bytes : List Nat) (pos : Nat) (h : file.length = pos) :
    writeAt file pos bytes = file ++ bytes := by
  subst h
  unfold writeAt
  rw [List.take_length, List.drop_eq_nil_of_le (by omega)]
  simp

lemma writeAt_length (file bytes : List Nat) (pos : Nat) (h : file.length = pos) :
    (writeAt file pos bytes).length = pos + bytes.length := by
  rw [writeAt_eof file bytes pos h]
  simp [h]

lemma take_chunk_length (remote : List Nat) (p : Nat) :
    ((remote.drop p).take CHUNK_SIZE).length =
      min CHUNK_SIZE (remote.length - p) := by
  simp [List.length_take, List.length_drop]

lemma pctOf_mono {p q : Nat} (n : Nat) (h : p ≤ q) : pctOf p n ≤ pctOf q n := by
  unfold pctOf
  split
  · exact le_refl _
  · exact Nat.div_le_div_right (Nat.mul_le_mul_right _ h)

lemma pctOf_le_100 {p n : Nat} (h : p ≤ n) : pctOf p n ≤ 100 := by
  unfold pctOf
  split
  · omega
  · rename_i h0
    calc p * 100 / n ≤ n * 100 / n :=
          Nat.div_le_div_right (Nat.mul_le_mul_right _ h)
      _ = 100 := Nat.mul_div_cancel_left 100 (Nat.pos_of_ne_zero h0)

/-- Basic invariants of a chunk-loop run: the file position never moves
backwards, end-of-file openings keep the handle at end-of-file, every
staging-file write lands at or after the starting position, a chunk loop
emits only write/progress/sleep events, and the position never passes the
remote size. -/
lemma chunkLoop_basic (remote : List Nat) :
    ∀ (sched : List ChunkOutcome) (s : EngineState),
      s.pos ≤ (chunkLoop remote sched s).1.state.pos ∧
      (s.file.length = s.pos →
        (chunkLoop remote sched s).1.state.file.length =
          (chunkLoop remote sched s).1.state.pos) ∧
      (∀ p l, Ev.writePart p l ∈ (chunkLoop remote sched s).2.2 → s.pos ≤ p) ∧
      (∀ e ∈ (chunkLoop remote sched s).2.2,
        isOpenEv e = false ∧ isReplaceEv e = false ∧ e ≠ Ev.warnMd5Mismatch) ∧
      (s.pos ≤ remote.length →
        (chunkLoop remote sched s).1.state.pos ≤ remote.length) := by
  intro sched
  induction sched with
  | nil => intro s; simp [chunkLoop, ChunkRes.state]
  | cons o rest ih =>
    intro s
    cases o with
    | ok =>
      rw [chunkLoop_cons_ok]
      have hpos := chunkOkStep_pos remote s
      have hfile := chunkOkStep_file remote s
      have hlen := take_chunk_length remote s.pos
      by_cases hdone : remote.length ≤ (chunkOkStep remote s).1.pos
      · rw [if_pos hdone]
        refine ⟨by simp [ChunkRes.state, hpos], ?_, ?_, ?_, ?_⟩
        · intro hfl
          simp only [ChunkRes.state]
          rw [hfile, hpos, writeAt_length _ _ _ hfl]
        · intro p l hmem
          rcases chunkOkStep_evs remote s _ hmem with ⟨l', hw⟩ | ⟨p', hw⟩
          · rw [Ev.writePart.injEq] at hw
            omega
          · exact absurd hw (by simp)
        · intro e he
          rcases chunkOkStep_evs remote s e he with ⟨l', hw⟩ | ⟨p', hw⟩ <;>
            subst hw <;> simp [isOpenEv, isReplaceEv]
        · intro hN
          simp only [ChunkRes.state]
          omega
      · rw [if_neg hdone]
        obtain ⟨ih1, ih2, ih3, ih4, ih5⟩ := ih (chunkOkStep remote s).1
        have hstep : s.pos ≤ (chunkOkStep remote s).1.pos := by omega
        refine ⟨le_trans hstep ih1, ?_, ?_, ?_, ?_⟩
        · intro hfl
          exact ih2 (by rw [hfile, hpos, writeAt_length _ _ _ hfl])
        · intro p l hmem
          rcases List.mem_append.mp hmem with hm | hm
          · rcases chunkOkStep_evs remote s _ hm with ⟨l', hw⟩ | ⟨p', hw⟩
            · rw [Ev.writePart.injEq] at hw
              omega
            · exact absurd hw (by simp)
          · exact le_trans hstep (ih3 p l hm)
        · intro e he
          rcases List.mem_append.mp he with hm | hm
          · rcases chunkOkStep_evs remote s e hm with ⟨l', hw⟩ | ⟨p', hw⟩ <;>
              subst hw <;> simp [isOpenEv, isReplaceEv]
          · exact ih4 e hm
        · intro hN
          exact ih5 (by omega)
    | httpErr st =>
      by_cases hr : MAX_CHUNK_RETRIES < s.chunkAttempt + 1
      · rw [chunkLoop_httpErr_raise remote st rest s hr]
        simp [ChunkRes.state]
      · rw [chunkLoop_httpErr_continue remote st rest s hr]
        obtain ⟨ih1, ih2, ih3, ih4, ih5⟩ :=
          ih ⟨s.file, s.pos, s.chunkAttempt + 1, s.lastPct⟩
        refine ⟨ih1, ih2, ?_, ?_, ih5⟩
        · intro p l hmem
          rcases List.mem_cons.mp hmem with hm | hm
          · exact absurd hm (by simp)
          · exact ih3 p l hm
        · intro e he
          rcases List.mem_cons.mp he with hm | hm
          · subst hm; simp [isOpenEv, isReplaceEv]
          · exact ih4 e hm
    | netErr =>
      by_cases hr : MAX_CHUNK_RETRIES < s.chunkAttempt + 1
      · rw [chunkLoop_netErr_raise remote rest s hr]
        simp [ChunkRes.state]
      · rw [chunkLoop_netErr_continue remote rest s hr]
        obtain ⟨ih1, ih2, ih3, ih4, ih5⟩ :=
          ih ⟨s.file, s.pos, s.chunkAttempt + 1, s.lastPct⟩
        refine ⟨ih1, ih2, ?_, ?_, ih5⟩
        · intro p l hmem
          rcases List.mem_cons.mp hmem with hm | hm
          · exact absurd hm (by simp)
          · exact ih3 p l hm
        · intro e he
          rcases List.mem_cons.mp he with hm | hm
          · subst hm; simp [isOpenEv, isReplaceEv]
          · exact ih4 e hm

/-! ### Unfolding lemmas for the file retry loop -/

lemma retryLoop_zero (md5h : List Nat → String) (remote : List Nat)
    (dmd5 : Option String) (attempt : Nat) (tempFile : Option (List Nat))
    (sched : List ChunkOutcome) :
    retryLoop md5h remote dmd5 attempt 0 tempFile sched = (FileRes.stuck, []) := rfl

lemma retryLoop_completed {md5h : List Nat → String} {remote : List Nat}
    {dmd5 : Option String} {attempt remaining : Nat}
    {tempFile : Option (List Nat)} {sched remSched : List ChunkOutcome}
    {s' : EngineState} {evs : List Ev}
    (h : chunkLoop remote sched (openTempState tempFile) =
      (ChunkRes.completed s', remSched, evs)) :
    retryLoop md5h remote dmd5 attempt (remaining + 1) tempFile sched =
      (FileRes.ok s'.file,
        Ev.openTemp tempFile.isSome :: evs ++
          Ev.replaceToFinal :: Ev.reportPct 100 ::
            warnEvsOf md5h dmd5 s'.file) := by
  simp only [retryLoop, h]

lemma retryLoop_raised_exhaust {md5h : List Nat → String} {remote : List Nat}
    {dmd5 : Option String} {attempt remaining : Nat}
    {tempFile : Option (List Nat)} {sched remSched : List ChunkOutcome}
    {s' : EngineState} {msg : String} {evs : List Ev}
    (h : chunkLoop remote sched (openTempState tempFile) =
      (ChunkRes.raised s' msg, remSched, evs))
    (ha : MAX_FILE_RETRIES ≤ attempt) :
    retryLoop md5h remote dmd5 attempt (remaining + 1) tempFile sched =
      (FileRes.raised msg, Ev.openTemp tempFile.isSome :: evs) := by
  simp only [retryLoop, h]
  rw [if_pos ha]

lemma retryLoop_raised_retry {md5h : List Nat → String} {remote : List Nat}
    {dmd5 : Option String} {attempt remaining : Nat}
    {tempFile : Option (List Nat)} {sched remSched : List ChunkOutcome}
    {s' : EngineState} {msg : String} {evs : List Ev}
    (h : chunkLoop remote sched (openTempState tempFile) =
      (ChunkRes.raised s' msg, remSched, evs))
    (ha : ¬MAX_FILE_RETRIES ≤ attempt) :
    retryLoop md5h remote dmd5 attempt (remaining + 1) tempFile sched =
      ((retryLoop md5h remote dmd5 (attempt + 1) remaining (some s'.file) remSched).1,
        Ev.openTemp tempFile.isSome :: evs ++
          Ev.sleepBackoff (safe_sleep_backoff_delay attempt none) ::
            (retryLoop md5h remote dmd5 (attempt + 1) remaining
              (some s'.file) remSched).2) := by
  simp only [retryLoop, h]
  rw [if_neg ha]

lemma retryLoop_stuck {md5h : List Nat → String} {remote : List Nat}
    {dmd5 : Option String} {attempt remaining : Nat}
    {tempFile : Option (List Nat)} {sched remSched : List ChunkOutcome}
    {s' : EngineState} {evs : List Ev}
    (h : chunkLoop remote sched (openTempState tempFile) =
      (ChunkRes.stuck s', remSched, evs)) :
    retryLoop md5h remote dmd5 attempt (remaining + 1) tempFile sched =
      (FileRes.stuck, Ev.openTemp tempFile.isSome :: evs) := by
  simp only [retryLoop, h]

lemma chunkEvs_countOpen_zero {remote : List Nat} {sched : List ChunkOutcome}
    {s : EngineState} : (chunkLoop remote sched s).2.2.countP isOpenEv = 0 :=
  List.countP_eq_zero.mpr fun e he => by
    simp [((chunkLoop_basic remote sched s).2.2.2.1 e he).1]

lemma warnEvsOf_sub {md5h : List Nat → String} {f : List Nat}
    {dmd5 : Option String} :
    warnEvsOf md5h dmd5 f = [] ∨ warnEvsOf md5h dmd5 f = [Ev.warnMd5Mismatch] := by
  unfold warnEvsOf
  cases dmd5 with
  | none => exact Or.inl rfl
  | some hh =>
    show (if md5h f ≠ hh then [Ev.warnMd5Mismatch] else []) = [] ∨
      (if md5h f ≠ hh then [Ev.warnMd5Mismatch] else []) = [Ev.warnMd5Mismatch]
    by_cases hm : md5h f ≠ hh
    · exact Or.inr (by rw [if_pos hm])
    · exact Or.inl (by rw [if_neg hm])

lemma warnEvsOf_countOpen_zero {md5h : List Nat → String} {f : List Nat}
    {dmd5 : Option String} :
    (warnEvsOf md5h dmd5 f).countP isOpenEv = 0 := by
  rcases @warnEvsOf_sub md5h f dmd5 with h | h <;>
    rw [h] <;> rfl

lemma warnEvsOf_pcts {md5h : List Nat → String} {f : List Nat}
    {dmd5 : Option String} : pctsOf (warnEvsOf md5h dmd5 f) = [] := by
  rcases @warnEvsOf_sub md5h f dmd5 with h | h <;>
    rw [h] <;> rfl

/-- Per-call bound on the number of file attempts (staging-file openings):
at most `remaining`, and exactly `remaining` when the call ends by
re-raising after exhausting the attempt budget. -/
lemma retryLoop_openCount (md5h : List Nat → String) (remote : List Nat)
    (dmd5 : Option String) :
    ∀ (remaining attempt : Nat) (tempFile : Option (List Nat))
      (sched : List ChunkOutcome),
      (retryLoop md5h remote dmd5 attempt remaining tempFile sched).2.countP
        isOpenEv ≤ remaining ∧
      (attempt + remaining = MAX_FILE_RETRIES + 1 →
        ∀ msg,
          (retryLoop md5h remote dmd5 attempt remaining tempFile sched).1 =
            FileRes.raised msg →
          (retryLoop md5h remote dmd5 attempt remaining tempFile sched).2.countP
            isOpenEv = remaining) := by
  intro remaining
  induction remaining with
  | zero =>
    intro attempt tempFile sched
    rw [retryLoop_zero]
    exact ⟨by simp, fun _ msg hmsg => by simp at hmsg⟩
  | succ remaining ih =>
    intro attempt tempFile sched
    rcases hcl : chunkLoop remote sched (openTempState tempFile) with
      ⟨res, remSched, evs⟩
    have hevs : evs.countP isOpenEv = 0 := by
      have := @chunkEvs_countOpen_zero remote sched (openTempState tempFile)
      rw [hcl] at this
      exact this
    cases res with
    | completed s' =>
      rw [retryLoop_completed hcl]
      constructor
      · simp [List.countP_cons, List.countP_append, hevs, isOpenEv,
          warnEvsOf_countOpen_zero]
      · intro _ msg hmsg
        simp at hmsg
    | raised s' msg' =>
      by_cases ha : MAX_FILE_RETRIES ≤ attempt
      · rw [retryLoop_raised_exhaust hcl ha]
        constructor
        · simp [List.countP_cons, hevs, isOpenEv]
        · intro hsum msg _
          simp [List.countP_cons, hevs, isOpenEv]
          omega
      · rw [retryLoop_raised_retry hcl ha]
        obtain ⟨ihc, ihe⟩ := ih (attempt + 1) (some s'.file) remSched
        constructor
        · simp only [List.countP_cons, List.countP_append, hevs, isOpenEv]
          simp
          omega
        · intro hsum msg hmsg
          simp only at hmsg
          have := ihe (by omega) msg hmsg
          simp only [List.countP_cons, List.countP_append, hevs, isOpenEv]
          simp
          omega
    | stuck s' =>
      rw [retryLoop_stuck hcl]
      constructor
      · simp [List.countP_cons, hevs, isOpenEv]
      · intro _ msg hmsg
        simp at hmsg

/-- C4: within one file attempt, each transient chunk failure increments
`chunk_attempt` and triggers backoff-then-retry; a successful chunk resets
the counter to zero; and the error escalates out of the chunk loop exactly
when the counter exceeds `MAX_CHUNK_RETRIES`, i.e. after
`MAX_CHUNK_RETRIES + 1` consecutive failures. -/
theorem claim_C4 (remote : List Nat) :
    (∀ (s : EngineState) (st : Option Nat) (rest : List ChunkOutcome),
      s.chunkAttempt + 1 ≤ MAX_CHUNK_RETRIES →
      chunkLoop remote (ChunkOutcome.httpErr st :: rest) s =
        ((chunkLoop remote rest ⟨s.file, s.pos, s.chunkAttempt + 1, s.lastPct⟩).1,
          (chunkLoop remote rest ⟨s.file, s.pos, s.chunkAttempt + 1, s.lastPct⟩).2.1,
          Ev.sleepBackoff (safe_sleep_backoff_delay (s.chunkAttempt + 1) st) ::
            (chunkLoop remote rest
              ⟨s.file, s.pos, s.chunkAttempt + 1, s.lastPct⟩).2.2)) ∧
    (∀ (s : EngineState) (rest : List ChunkOutcome),
      s.chunkAttempt + 1 ≤ MAX_CHUNK_RETRIES →
      chunkLoop remote (ChunkOutcome.netErr :: rest) s =
        ((chunkLoop remote rest ⟨s.file, s.pos, s.chunkAttempt + 1, s.lastPct⟩).1,
          (chunkLoop remote rest ⟨s.file, s.pos, s.chunkAttempt + 1, s.lastPct⟩).2.1,
          Ev.sleepBackoff (safe_sleep_backoff_delay (s.chunkAttempt + 1) none) ::
            (chunkLoop remote rest
              ⟨s.file, s.pos, s.chunkAttempt + 1, s.lastPct⟩).2.2)) ∧
    (∀ s : EngineState, (chunkOkStep remote s).1.chunkAttempt = 0) ∧
    (∀ (s : EngineState) (st : Option Nat) (rest : List ChunkOutcome),
      MAX_CHUNK_RETRIES < s.chunkAttempt + 1 →
      chunkLoop remote (ChunkOutcome.httpErr st :: rest) s =
        (ChunkRes.raised ⟨s.file, s.pos, s.chunkAttempt + 1, s.lastPct⟩
          "HttpError", rest, [])) ∧
    (∀ (s : EngineState) (rest : List ChunkOutcome),
      s.chunkAttempt = 0 →
      (chunkLoop remote
          (List.replicate (MAX_CHUNK_RETRIES + 1) ChunkOutcome.netErr ++ rest)
          s).1 =
        ChunkRes.raised ⟨s.file, s.pos, MAX_CHUNK_RETRIES + 1, s.lastPct⟩
          "NetworkError" ∧
      (chunkLoop remote
          (List.replicate (MAX_CHUNK_RETRIES + 1) ChunkOutcome.netErr ++ rest)
          s).2.1 = rest) := by
  refine ⟨?_, ?_, ?_, ?_, ?_⟩
  · intro s st rest h
    exact chunkLoop_httpErr_continue remote st rest s (by omega)
  · intro s rest h
    exact chunkLoop_netErr_continue remote rest s (by omega)
  · intro s
    exact chunkOkStep_chunkAttempt remote s
  · intro s st rest h
    exact chunkLoop_httpErr_raise remote st rest s h
  · intro s rest h0
    obtain ⟨f, p, ca, lp⟩ := s
    simp only at h0
    subst h0
    have hstep : ∀ (c : Nat) (tail : List ChunkOutcome),
        c + 1 ≤ MAX_CHUNK_RETRIES →
        chunkLoop remote (ChunkOutcome.netErr :: tail) ⟨f, p, c, lp⟩ =
          ((chunkLoop remote tail ⟨f, p, c + 1, lp⟩).1,
            (chunkLoop remote tail ⟨f, p, c + 1, lp⟩).2.1,
            Ev.sleepBackoff (safe_sleep_backoff_delay (c + 1) none) ::
              (chunkLoop remote tail ⟨f, p, c + 1, lp⟩).2.2) :=
      fun c tail hc => chunkLoop_netErr_continue remote tail ⟨f, p, c, lp⟩
        (by show ¬MAX_CHUNK_RETRIES < c + 1; omega)
    have hsched : List.replicate (MAX_CHUNK_RETRIES + 1) ChunkOutcome.netErr ++ rest
        = ChunkOutcome.netErr :: ChunkOutcome.netErr :: ChunkOutcome.netErr ::
          ChunkOutcome.netErr :: ChunkOutcome.netErr :: ChunkOutcome.netErr :: rest := by
      simp [MAX_CHUNK_RETRIES, List.replicate]
    rw [hsched]
    rw [hstep 0 _ (by simp [MAX_CHUNK_RETRIES])]
    rw [hstep 1 _ (by simp [MAX_CHUNK_RETRIES])]
    rw [hstep 2 _ (by simp [MAX_CHUNK_RETRIES])]
    rw [hstep 3 _ (by simp [MAX_CHUNK_RETRIES])]
    rw [hstep 4 _ (by simp [MAX_CHUNK_RETRIES])]
    rw [chunkLoop_netErr_raise remote rest ⟨f, p, 5, lp⟩ (by simp [MAX_CHUNK_RETRIES])]
    exact ⟨rfl, rfl⟩

theorem claim_C4_witness :
    chunkLoop [1] [ChunkOutcome.httpErr (some 500)] ⟨[], 0, 0, -1⟩ =
      ((chunkLoop [1] [] ⟨[], 0, 0 + 1, -1⟩).1,
        (chunkLoop [1] [] ⟨[], 0, 0 + 1, -1⟩).2.1,
        Ev.sleepBackoff (safe_sleep_backoff_delay (0 + 1) (some 500)) ::
          (chunkLoop [1] [] ⟨[], 0, 0 + 1, -1⟩).2.2) :=
  (claim_C4 [1]).1 ⟨[], 0, 0, -1⟩ (some 500) [] (by decide)

/-- C3: an error escaping the chunk loop increments the file attempt
counter; below the maximum, the backoff delay is applied and the whole
chunk loop restarts on the same staging file; at the maximum the failure
propagates to the caller; hence the chunk loop runs at most
`MAX_FILE_RETRIES` times per call (counting staging-file openings). -/
theorem claim_C3 (md5h : List Nat → String) (remote : List Nat)
    (dmd5 : Option String) :
    (∀ (tempFile : Option (List Nat)) (sched : List ChunkOutcome),
      (retryLoop md5h remote dmd5 1 MAX_FILE_RETRIES tempFile sched).2.countP
        isOpenEv ≤ MAX_FILE_RETRIES) ∧
    (∀ (tempFile : Option (List Nat)) (sched : List ChunkOutcome) (msg : String),
      (retryLoop md5h remote dmd5 1 MAX_FILE_RETRIES tempFile sched).1 =
        FileRes.raised msg →
      (retryLoop md5h remote dmd5 1 MAX_FILE_RETRIES tempFile sched).2.countP
        isOpenEv = MAX_FILE_RETRIES) ∧
    (∀ (attempt remaining : Nat) (tempFile : Option (List Nat))
        (sched remSched : List ChunkOutcome) (s' : EngineState) (msg : String)
        (evs : List Ev),
      chunkLoop remote sched (openTempState tempFile) =
        (ChunkRes.raised s' msg, remSched, evs) →
      attempt < MAX_FILE_RETRIES →
      retryLoop md5h remote dmd5 attempt (remaining + 1) tempFile sched =
        ((retryLoop md5h remote dmd5 (attempt + 1) remaining
            (some s'.file) remSched).1,
          Ev.openTemp tempFile.isSome :: evs ++
            Ev.sleepBackoff (safe_sleep_backoff_delay attempt none) ::
              (retryLoop md5h remote dmd5 (attempt + 1) remaining
                (some s'.file) remSched).2)) ∧
    (∀ (attempt remaining : Nat) (tempFile : Option (List Nat))
        (sched remSched : List ChunkOutcome) (s' : EngineState) (msg : String)
        (evs : List Ev),
      chunkLoop remote sched (openTempState tempFile) =
        (ChunkRes.raised s' msg, remSched, evs) →
      MAX_FILE_RETRIES ≤ attempt →
      retryLoop md5h remote dmd5 attempt (remaining + 1) tempFile sched =
        (FileRes.raised msg, Ev.openTemp tempFile.isSome :: evs)) := by
  refine ⟨?_, ?_, ?_, ?_⟩
  · intro tempFile sched
    exact (retryLoop_openCount md5h remote dmd5 MAX_FILE_RETRIES 1 tempFile sched).1
  · intro tempFile sched msg hmsg
    exact (retryLoop_openCount md5h remote dmd5 MAX_FILE_RETRIES 1 tempFile
      sched).2 (by omega) msg hmsg
  · intro attempt remaining tempFile sched remSched s' msg evs hcl ha
    exact retryLoop_raised_retry hcl (by omega)
  · intro attempt remaining tempFile sched remSched s' msg evs hcl ha
    exact retryLoop_raised_exhaust hcl ha

theorem claim_C3_witness :
    (retryLoop (fun _ => "m") [0] none 1 MAX_FILE_RETRIES none
      (List.replicate 30 (ChunkOutcome.httpErr (some 500)))).2.countP isOpenEv =
      MAX_FILE_RETRIES :=
  (claim_C3 (fun _ => "m") [0] none).2.1 none
    (List.replicate 30 (ChunkOutcome.httpErr (some 500))) "HttpError" (by decide)

lemma chunkEvs_no_write_none {remote : List Nat} {sched : List ChunkOutcome}
    {s : EngineState} {e : Ev} (he : e ∈ (chunkLoop remote sched s).2.2) :
    isOpenEv e = false ∧ isReplaceEv e = false ∧ e ≠ Ev.warnMd5Mismatch :=
  (chunkLoop_basic remote sched s).2.2.2.1 e he

lemma chunkOkStep_prefix (remote : List Nat) (s : EngineState)
    (h1 : s.file = remote.take s.pos) (h2 : s.pos ≤ remote.length) :
    (chunkOkStep remote s).1.file = remote.take ((chunkOkStep remote s).1.pos) := by
  have hfl : s.file.length = s.pos := by
    rw [h1, List.length_take]
    omega
  rw [chunkOkStep_file, chunkOkStep_pos, writeAt_eof _ _ _ hfl, h1,
    List.take_add]
  congr 1
  have hpre := List.take_prefix CHUNK_SIZE (remote.drop s.pos)
  exact List.prefix_iff_eq_take.mp hpre

lemma chunkLoop_allOk_completes (remote : List Nat) :
    ∀ (b : Nat) (s : EngineState),
      s.file = remote.take s.pos → s.pos < remote.length →
      remote.length - s.pos ≤ b →
      ∃ s' rem evs,
        chunkLoop remote (List.replicate b ChunkOutcome.ok) s =
          (ChunkRes.completed s', rem, evs) ∧ s'.file = remote := by
  intro b
  induction b with
  | zero => intro s h1 h2 h3; omega
  | succ b ih =>
    intro s h1 h2 h3
    have hlen := take_chunk_length remote s.pos
    have hpos := chunkOkStep_pos remote s
    have hfile' := chunkOkStep_prefix remote s h1 (le_of_lt h2)
    have hCpos : 1 ≤ ((remote.drop s.pos).take CHUNK_SIZE).length := by
      rw [hlen]
      have : 1 ≤ CHUNK_SIZE := by norm_num [CHUNK_SIZE]
      omega
    have hle : (chunkOkStep remote s).1.pos ≤ remote.length := by
      rw [hpos, hlen]
      omega
    rw [show List.replicate (b + 1) ChunkOutcome.ok =
      ChunkOutcome.ok :: List.replicate b ChunkOutcome.ok from rfl]
    by_cases hdone : remote.length ≤ (chunkOkStep remote s).1.pos
    · refine ⟨(chunkOkStep remote s).1, List.replicate b ChunkOutcome.ok,
        (chunkOkStep remote s).2, ?_, ?_⟩
      · rw [chunkLoop_cons_ok, if_pos hdone]
      · rw [hfile', show (chunkOkStep remote s).1.pos = remote.length from by
          omega]
        exact List.take_length remote
    · obtain ⟨s', rem, evs, heq, hfin⟩ := ih (chunkOkStep remote s).1 hfile'
        (by omega) (by omega)
      refine ⟨s', rem, (chunkOkStep remote s).2 ++ evs, ?_, hfin⟩
      rw [chunkLoop_cons_ok, if_neg hdone, heq]

lemma chunkLoop_okPrefix (remote : List Nat) :
    ∀ (a : Nat) (s : EngineState) (tail : List ChunkOutcome),
      s.file = remote.take s.pos →
      s.pos + a * CHUNK_SIZE < remote.length →
      ∃ (ca : Nat) (lp : Int) (evs : List Ev),
        ca ≤ s.chunkAttempt ∧
        chunkLoop remote (List.replicate a ChunkOutcome.ok ++ tail) s =
          ((chunkLoop remote tail
              ⟨remote.take (s.pos + a * CHUNK_SIZE), s.pos + a * CHUNK_SIZE,
                ca, lp⟩).1,
            (chunkLoop remote tail
              ⟨remote.take (s.pos + a * CHUNK_SIZE), s.pos + a * CHUNK_SIZE,
                ca, lp⟩).2.1,
            evs ++
              (chunkLoop remote tail
                ⟨remote.take (s.pos + a * CHUNK_SIZE), s.pos + a * CHUNK_SIZE,
                  ca, lp⟩).2.2) := by
  intro a
  induction a with
  | zero =>
    intro s tail h1 h2
    obtain ⟨f, p, ca, lp⟩ := s
    simp only at h1
    refine ⟨ca, lp, [], le_refl _, ?_⟩
    simp only [Nat.zero_mul, Nat.add_zero, List.replicate, List.nil_append]
    rw [← h1]
  | succ a ih =>
    intro s tail h1 h2
    have hlen := take_chunk_length remote s.pos
    have hpos := chunkOkStep_pos remote s
    have hsm : (a + 1) * CHUNK_SIZE = a * CHUNK_SIZE + CHUNK_SIZE := by ring
    have hCfull : ((remote.drop s.pos).take CHUNK_SIZE).length = CHUNK_SIZE := by
      rw [hlen]
      omega
    have hposC : (chunkOkStep remote s).1.pos = s.pos + CHUNK_SIZE := by
      rw [hpos, hCfull]
    have hfile' := chunkOkStep_prefix remote s h1 (by omega)
    have hnotdone : ¬remote.length ≤ (chunkOkStep remote s).1.pos := by
      rw [hposC]
      omega
    have harg : (chunkOkStep remote s).1.pos + a * CHUNK_SIZE =
        s.pos + (a + 1) * CHUNK_SIZE := by
      rw [hposC]
      omega
    have h2' : (chunkOkStep remote s).1.pos + a * CHUNK_SIZE < remote.length := by
      omega
    obtain ⟨ca, lp, evs, hca, heq⟩ := ih (chunkOkStep remote s).1 tail
      (by rw [hfile']) h2'
    rw [harg] at heq
    refine ⟨ca, lp, (chunkOkStep remote s).2 ++ evs, ?_, ?_⟩
    · have := chunkOkStep_chunkAttempt remote s
      omega
    · rw [show List.replicate (a + 1) ChunkOutcome.ok ++ tail =
        ChunkOutcome.ok :: (List.replicate a ChunkOutcome.ok ++ tail) from rfl]
      rw [chunkLoop_cons_ok, if_neg hnotdone, heq]
      simp

lemma warnEvsOf_self_nil {md5h : List Nat → String} {f : List Nat} :
    warnEvsOf md5h (some (md5h f)) f = [] := by
  unfold warnEvsOf
  show (if md5h f ≠ md5h f then [Ev.warnMd5Mismatch] else []) = []
  rw [if_neg (by simp)]

/-- C1 (spec-modelled transport): resuming with a staging file holding the
first `k` of `N` remote bytes, against a simulated transport that fails
exactly once mid-stream and then succeeds, never writes below position `k`,
and the published file is exactly the remote bytes: size `N` and the same
hash as the remote hash. -/
theorem claim_C1 (md5h : List Nat → String) (remote : List Nat) (k a b : Nat)
    (st : Option Nat) (ha : k + a * CHUNK_SIZE < remote.length)
    (hb : remote.length ≤ b) :
    ∀ res evs,
      download_file_to_path_with_retries md5h
          ⟨some "fid", none, none, some remote.length, some (md5h remote)⟩
          none (some (remote.take k)) remote
          (List.replicate a ChunkOutcome.ok ++
            ChunkOutcome.httpErr st :: List.replicate b ChunkOutcome.ok) =
        (res, evs) →
      res = FileRes.ok remote ∧
      (∀ p l, Ev.writePart p l ∈ evs → k ≤ p) ∧
      Ev.warnMd5Mismatch ∉ evs ∧
      ∃ f, res = FileRes.ok f ∧ f.length = remote.length ∧
        md5h f = md5h remote := by
  intro res evs h
  have hkN : k ≤ remote.length := by omega
  have hlk : (remote.take k).length = k := by
    rw [List.length_take]
    omega
  have hs0 : openTempState (some (remote.take k)) =
      ⟨remote.take k, k, 0, -1⟩ := by
    show (⟨remote.take k, (remote.take k).length, 0, -1⟩ : EngineState) =
      ⟨remote.take k, k, 0, -1⟩
    rw [hlk]
  obtain ⟨ca, lp, evs1, hca, heq1⟩ := chunkLoop_okPrefix remote a
    ⟨remote.take k, k, 0, -1⟩
    (ChunkOutcome.httpErr st :: List.replicate b ChunkOutcome.ok)
    rfl ha
  simp only at hca
  have hca0 : ca = 0 := by omega
  subst hca0
  have hcont := chunkLoop_httpErr_continue remote st
    (List.replicate b ChunkOutcome.ok)
    ⟨remote.take (k + a * CHUNK_SIZE), k + a * CHUNK_SIZE, 0, lp⟩
    (by show ¬MAX_CHUNK_RETRIES < 0 + 1; simp [MAX_CHUNK_RETRIES])
  obtain ⟨s', rem, evs3, heq3, hfin⟩ := chunkLoop_allOk_completes remote b
    ⟨remote.take (k + a * CHUNK_SIZE), k + a * CHUNK_SIZE, 0 + 1, lp⟩
    rfl ha (by simp only []; omega)
  simp only at hcont
  rw [heq3] at hcont
  simp only at hcont
  rw [hcont] at heq1
  simp only at heq1
  have hcl : chunkLoop remote
      (List.replicate a ChunkOutcome.ok ++
        ChunkOutcome.httpErr st :: List.replicate b ChunkOutcome.ok)
      (openTempState (some (remote.take k))) =
      (ChunkRes.completed s', rem,
        evs1 ++
          Ev.sleepBackoff (safe_sleep_backoff_delay (0 + 1) st) :: evs3) := by
    rw [hs0]
    exact heq1
  have hrl := @retryLoop_completed md5h remote (some (md5h remote)) 1 4
    _ _ _ _ _ hcl
  rw [show download_file_to_path_with_retries md5h
      ⟨some "fid", none, none, some remote.length, some (md5h remote)⟩
      none (some (remote.take k)) remote
      (List.replicate a ChunkOutcome.ok ++
        ChunkOutcome.httpErr st :: List.replicate b ChunkOutcome.ok) =
    retryLoop md5h remote (some (md5h remote)) 1 MAX_FILE_RETRIES
      (some (remote.take k))
      (List.replicate a ChunkOutcome.ok ++
        ChunkOutcome.httpErr st :: List.replicate b ChunkOutcome.ok)
    from rfl] at h
  rw [show MAX_FILE_RETRIES = 4 + 1 from rfl] at h
  rw [hrl, Prod.mk.injEq] at h
  obtain ⟨hres, hevs⟩ := h
  rw [hfin] at hres
  rw [hfin, warnEvsOf_self_nil] at hevs
  have hbasic := chunkLoop_basic remote
    (List.replicate a ChunkOutcome.ok ++
      ChunkOutcome.httpErr st :: List.replicate b ChunkOutcome.ok)
    (openTempState (some (remote.take k)))
  rw [hcl] at hbasic
  rw [hs0] at hbasic
  simp only at hbasic
  obtain ⟨-, -, hwrites, hclass, -⟩ := hbasic
  refine ⟨hres.symm, ?_, ?_, remote, hres.symm, rfl, rfl⟩
  · intro p l hmem
    rw [← hevs] at hmem
    rcases List.mem_cons.mp hmem with hm | hm
    · simp at hm
    · rcases List.mem_append.mp hm with hm2 | hm2
      · exact hwrites p l hm2
      · simp at hm2
  · intro hmem
    rw [← hevs] at hmem
    rcases List.mem_cons.mp hmem with hm | hm
    · simp at hm
    · rcases List.mem_append.mp hm with hm2 | hm2
      · exact (hclass _ hm2).2.2 rfl
      · simp at hm2

theorem claim_C1_witness :
    (download_file_to_path_with_retries (fun _ => "h")
        ⟨some "fid", none, none, some (List.range 10).length,
          some ((fun _ => "h") (List.range 10))⟩
        none (some ((List.range 10).take 4)) (List.range 10)
        (List.replicate 0 ChunkOutcome.ok ++
          ChunkOutcome.httpErr (some 500) :: List.replicate 10 ChunkOutcome.ok)).1 =
      FileRes.ok (List.range 10) :=
  ((claim_C1 (fun _ => "h") (List.range 10) 4 0 10 (some 500) (by decide)
    (by decide)) _ _ rfl).1

/-! ### Progress-percentage trace lemmas (claim C9) -/

lemma pctsOf_append (l1 l2 : List Ev) :
    pctsOf (l1 ++ l2) = pctsOf l1 ++ pctsOf l2 :=
  List.filterMap_append l1 l2 _

lemma chunkOkStep_lastPct (remote : List Nat) (s : EngineState) :
    (chunkOkStep remote s).1.lastPct =
      (pctOf (chunkOkStep remote s).1.pos remote.length : Int) := by
  unfold chunkOkStep
  split
  · rfl
  · rename_i hcond
    simp only []
    exact (not_ne_iff.mp hcond).symm

lemma chunkOkStep_pcts (remote : List Nat) (s : EngineState) :
    pctsOf (chunkOkStep remote s).2 = [] ∨
    (pctsOf (chunkOkStep remote s).2 =
        [pctOf (chunkOkStep remote s).1.pos remote.length] ∧
      s.lastPct ≠ (pctOf (chunkOkStep remote s).1.pos remote.length : Int)) := by
  unfold chunkOkStep
  split
  · rename_i hcond
    right
    exact ⟨rfl, Ne.symm hcond⟩
  · left
    rfl

/-- Within one chunk-loop run the reported percentages are strictly
increasing, bounded between the starting and ending position percentages,
all above the incoming `last_pct`, and `last_pct` never exceeds the
percentage at the current position. -/
lemma chunkLoop_pcts (remote : List Nat) :
    ∀ (sched : List ChunkOutcome) (s : EngineState),
      s.pos ≤ remote.length →
      s.lastPct ≤ (pctOf s.pos remote.length : Int) →
      List.Pairwise (· < ·) (pctsOf (chunkLoop remote sched s).2.2) ∧
      (∀ x ∈ pctsOf (chunkLoop remote sched s).2.2,
        s.lastPct < (x : Int) ∧ pctOf s.pos remote.length ≤ x ∧
        x ≤ pctOf (chunkLoop remote sched s).1.state.pos remote.length) ∧
      (chunkLoop remote sched s).1.state.lastPct ≤
        (pctOf (chunkLoop remote sched s).1.state.pos remote.length : Int) := by
  intro sched
  induction sched with
  | nil =>
    intro s hN hlp
    exact ⟨by simp [chunkLoop, pctsOf], by simp [chunkLoop, pctsOf],
      by simpa [chunkLoop, ChunkRes.state] using hlp⟩
  | cons o rest ih =>
    intro s hN hlp
    cases o with
    | ok =>
      have hpos := chunkOkStep_pos remote s
      have hlen := take_chunk_length remote s.pos
      have hposN : (chunkOkStep remote s).1.pos ≤ remote.length := by omega
      have hposmono : s.pos ≤ (chunkOkStep remote s).1.pos := by omega
      have hlast := chunkOkStep_lastPct remote s
      have hmono := pctOf_mono remote.length hposmono
      rw [chunkLoop_cons_ok]
      by_cases hdone : remote.length ≤ (chunkOkStep remote s).1.pos
      · rw [if_pos hdone]
        simp only [ChunkRes.state]
        rcases chunkOkStep_pcts remote s with hp | ⟨hp, hne⟩
        · exact ⟨by simp [hp], by simp [hp], by rw [hlast]⟩
        · refine ⟨by simp [hp], ?_, by rw [hlast]⟩
          intro x hx
          rw [hp] at hx
          rcases List.mem_singleton.mp hx with rfl
          refine ⟨?_, hmono, le_refl _⟩
          exact lt_of_le_of_ne (le_trans hlp (by exact_mod_cast hmono)) hne
      · rw [if_neg hdone]
        simp only [ChunkRes.state]
        obtain ⟨ih1, ih2, ih3⟩ := ih (chunkOkStep remote s).1 hposN
          (le_of_eq hlast)
        have hposmono2 := (chunkLoop_basic remote rest (chunkOkStep remote s).1).1
        have hmono2 := pctOf_mono remote.length hposmono2
        rw [pctsOf_append]
        rcases chunkOkStep_pcts remote s with hp | ⟨hp, hne⟩
        · rw [hp, List.nil_append]
          refine ⟨ih1, ?_, ih3⟩
          intro x hx
          obtain ⟨hx1, hx2, hx3⟩ := ih2 x hx
          refine ⟨?_, le_trans hmono hx2, hx3⟩
          have hstep : s.lastPct ≤ (chunkOkStep remote s).1.lastPct := by
            rw [hlast]
            exact le_trans hlp (by exact_mod_cast hmono)
          exact lt_of_le_of_lt hstep hx1
        · rw [hp]
          have hsx : s.lastPct < (pctOf (chunkOkStep remote s).1.pos remote.length : Int) :=
            lt_of_le_of_ne (le_trans hlp (by exact_mod_cast hmono)) hne
          refine ⟨?_, ?_, ih3⟩
          · rw [List.pairwise_append]
            refine ⟨by simp, ih1, ?_⟩
            intro x hx y hy
            rcases List.mem_singleton.mp hx with rfl
            obtain ⟨hy1, hy2, hy3⟩ := ih2 y hy
            rw [hlast] at hy1
            exact_mod_cast hy1
          · intro x hx
            rcases List.mem_append.mp hx with hm | hm
            · rcases List.mem_singleton.mp hm with rfl
              exact ⟨hsx, hmono, hmono2⟩
            · obtain ⟨hy1, hy2, hy3⟩ := ih2 x hm
              refine ⟨?_, le_trans hmono hy2, hy3⟩
              calc s.lastPct < (pctOf (chunkOkStep remote s).1.pos remote.length : Int) := hsx
                _ ≤ (x : Int) := by
                    rw [← hlast]
                    exact le_of_lt hy1
    | httpErr st =>
      by_cases hr : MAX_CHUNK_RETRIES < s.chunkAttempt + 1
      · rw [chunkLoop_httpErr_raise remote st rest s hr]
        exact ⟨by simp [pctsOf], by simp [pctsOf],
          by simpa [ChunkRes.state] using hlp⟩
      · rw [chunkLoop_httpErr_continue remote st rest s hr]
        obtain ⟨ih1, ih2, ih3⟩ := ih ⟨s.file, s.pos, s.chunkAttempt + 1, s.lastPct⟩
          hN hlp
        refine ⟨?_, ?_, ih3⟩
        · simpa [pctsOf, List.filterMap_cons] using ih1
        · intro x hx
          simp only [pctsOf, List.filterMap_cons] at hx
          exact ih2 x hx
    | netErr =>
      by_cases hr : MAX_CHUNK_RETRIES < s.chunkAttempt + 1
      · rw [chunkLoop_netErr_raise remote rest s hr]
        exact ⟨by simp [pctsOf], by simp [pctsOf],
          by simpa [ChunkRes.state] using hlp⟩
      · rw [chunkLoop_netErr_continue remote rest s hr]
        obtain ⟨ih1, ih2, ih3⟩ := ih ⟨s.file, s.pos, s.chunkAttempt + 1, s.lastPct⟩
          hN hlp
        refine ⟨?_, ?_, ih3⟩
        · simpa [pctsOf, List.filterMap_cons] using ih1
        · intro x hx
          simp only [pctsOf, List.filterMap_cons] at hx
          exact ih2 x hx

lemma openTempState_pos (t : Option (List Nat)) :
    (openTempState t).pos = (t.getD []).length := by
  cases t <;> rfl

lemma openTempState_fileLen (t : Option (List Nat)) :
    (openTempState t).file.length = (openTempState t).pos := by
  cases t <;> rfl

lemma openTempState_lastPct (t : Option (List Nat)) :
    (openTempState t).lastPct = -1 := by
  cases t <;> rfl


lemma pctsOf_nil : pctsOf [] = [] := rfl

lemma pctsOf_open_cons (b : Bool) (l : List Ev) :
    pctsOf (Ev.openTemp b :: l) = pctsOf l := rfl

lemma pctsOf_sleep_cons (d : ℚ) (l : List Ev) :
    pctsOf (Ev.sleepBackoff d :: l) = pctsOf l := rfl

lemma pctsOf_replace_cons (l : List Ev) :
    pctsOf (Ev.replaceToFinal :: l) = pctsOf l := rfl

lemma pctsOf_report_cons (p : Nat) (l : List Ev) :
    pctsOf (Ev.reportPct p :: l) = p :: pctsOf l := rfl

/-- Over a whole engine call (all file attempts and the completion report),
the delivered percentages are monotonically non-decreasing and lie between
the percentage of the initial staging-file size and 100. -/
lemma retryLoop_pcts (md5h : List Nat → String) (remote : List Nat)
    (dmd5 : Option String) :
    ∀ (remaining attempt : Nat) (tempFile : Option (List Nat))
      (sched : List ChunkOutcome),
      (tempFile.getD []).length ≤ remote.length →
      List.Pairwise (· ≤ ·)
        (pctsOf (retryLoop md5h remote dmd5 attempt remaining tempFile sched).2) ∧
      (∀ x ∈ pctsOf
          (retryLoop md5h remote dmd5 attempt remaining tempFile sched).2,
        pctOf (tempFile.getD []).length remote.length ≤ x ∧ x ≤ 100) := by
  intro remaining
  induction remaining with
  | zero =>
    intro attempt tempFile sched hN
    rw [retryLoop_zero]
    simp [pctsOf]
  | succ remaining ih =>
    intro attempt tempFile sched hN
    have hpos0 := openTempState_pos tempFile
    have hN0 : (openTempState tempFile).pos ≤ remote.length := by
      rw [hpos0]; exact hN
    have hlp0 : (openTempState tempFile).lastPct ≤
        (pctOf (openTempState tempFile).pos remote.length : Int) := by
      rw [openTempState_lastPct]
      calc (-1 : Int) ≤ 0 := by norm_num
        _ ≤ (pctOf (openTempState tempFile).pos remote.length : Int) :=
          Int.natCast_nonneg _
    obtain ⟨hp1, hp2, hp3⟩ := chunkLoop_pcts remote sched (openTempState tempFile)
      hN0 hlp0
    obtain ⟨hb1, hb2, hb3, hb4, hb5⟩ :=
      chunkLoop_basic remote sched (openTempState tempFile)
    rcases hcl : chunkLoop remote sched (openTempState tempFile) with
      ⟨res, remSched, cevs⟩
    rw [hcl] at hp1 hp2 hp3 hb1 hb2 hb5
    have hfl := hb2 (openTempState_fileLen tempFile)
    have hendN := hb5 hN0
    cases res with
    | completed s' =>
      simp only [ChunkRes.state] at hp1 hp2 hp3 hb1 hfl hendN
      rw [retryLoop_completed hcl]
      have hcap : pctOf s'.pos remote.length ≤ 100 := pctOf_le_100 hendN
      have hpcts : pctsOf (Ev.openTemp tempFile.isSome :: cevs ++
          Ev.replaceToFinal :: Ev.reportPct 100 ::
            warnEvsOf md5h dmd5 s'.file) = pctsOf cevs ++ [100] := by
        rw [List.cons_append, pctsOf_open_cons, pctsOf_append,
          pctsOf_replace_cons, pctsOf_report_cons]
        rcases @warnEvsOf_sub md5h s'.file dmd5 with
          hw | hw <;> rw [hw] <;> rfl
      rw [hpcts]
      constructor
      · rw [List.pairwise_append]
        refine ⟨hp1.imp le_of_lt, by simp, ?_⟩
        intro x hx y hy
        rcases List.mem_singleton.mp hy with rfl
        exact le_trans (hp2 x hx).2.2 hcap
      · intro x hx
        rcases List.mem_append.mp hx with hm | hm
        · obtain ⟨h1, h2, h3⟩ := hp2 x hm
          rw [hpos0] at h2
          exact ⟨h2, le_trans h3 hcap⟩
        · rcases List.mem_singleton.mp hm with rfl
          exact ⟨by rw [← hpos0]; exact pctOf_le_100 hN0, le_refl _⟩
    | raised s' msg =>
      simp only [ChunkRes.state] at hp1 hp2 hp3 hb1 hfl hendN
      by_cases ha : MAX_FILE_RETRIES ≤ attempt
      · rw [retryLoop_raised_exhaust hcl ha, pctsOf_open_cons]
        constructor
        · exact hp1.imp le_of_lt
        · intro x hx
          obtain ⟨h1, h2, h3⟩ := hp2 x hx
          rw [hpos0] at h2
          exact ⟨h2, le_trans h3 (pctOf_le_100 hendN)⟩
      · rw [retryLoop_raised_retry hcl ha]
        have hpcts : pctsOf (Ev.openTemp tempFile.isSome :: cevs ++
            Ev.sleepBackoff (safe_sleep_backoff_delay attempt none) ::
              (retryLoop md5h remote dmd5 (attempt + 1) remaining
                (some s'.file) remSched).2) =
            pctsOf cevs ++
              pctsOf (retryLoop md5h remote dmd5 (attempt + 1) remaining
                (some s'.file) remSched).2 := by
          rw [List.cons_append, pctsOf_open_cons, pctsOf_append,
            pctsOf_sleep_cons]
        rw [hpcts]
        have hN' : ((some s'.file).getD []).length ≤ remote.length := by
          simp only [Option.getD]
          rw [hfl]
          exact hendN
        obtain ⟨ih1, ih2⟩ := ih (attempt + 1) (some s'.file) remSched hN'
        have hlow : pctOf ((some s'.file).getD []).length remote.length =
            pctOf s'.pos remote.length := by
          simp only [Option.getD]
          rw [hfl]
        constructor
        · rw [List.pairwise_append]
          refine ⟨hp1.imp le_of_lt, ih1, ?_⟩
          intro x hx y hy
          have hx3 := (hp2 x hx).2.2
          have hy2 := (ih2 y hy).1
          rw [hlow] at hy2
          exact le_trans hx3 hy2
        · intro x hx
          rcases List.mem_append.mp hx with hm | hm
          · obtain ⟨h1, h2, h3⟩ := hp2 x hm
            rw [hpos0] at h2
            exact ⟨h2, le_trans h3 (pctOf_le_100 hendN)⟩
          · obtain ⟨h2, h3⟩ := ih2 x hm
            rw [hlow] at h2
            refine ⟨?_, h3⟩
            rw [hpos0] at hb1
            exact le_trans (pctOf_mono remote.length hb1) h2
    | stuck s' =>
      simp only [ChunkRes.state] at hp1 hp2 hp3 hb1 hfl hendN
      rw [retryLoop_stuck hcl, pctsOf_open_cons]
      constructor
      · exact hp1.imp le_of_lt
      · intro x hx
        obtain ⟨h1, h2, h3⟩ := hp2 x hx
        rw [hpos0] at h2
        exact ⟨h2, le_trans h3 (pctOf_le_100 hendN)⟩

/-- C9 (amended): within a single transfer of one file the delivered
percentage sequence is monotonically non-decreasing, and within one chunk
loop pass (one file attempt) no percentage is delivered twice; however the
completion path reports 100 once more after the chunk loop, and a new file
attempt resets `last_pct`, so over the whole transfer the same value can be
delivered again (see the counterexample). -/
theorem claim_C9 (md5h : List Nat → String) (remote : List Nat) :
    (∀ (meta : FileMeta) (localFinal tempFile : Option (List Nat))
        (sched : List ChunkOutcome),
      (tempFile.getD []).length ≤ remote.length →
      List.Pairwise (· ≤ ·)
        (pctsOf (download_file_to_path_with_retries md5h meta localFinal
          tempFile remote sched).2)) ∧
    (∀ (sched : List ChunkOutcome) (file : List Nat) (pos ca : Nat),
      pos ≤ remote.length →
      List.Pairwise (· < ·)
        (pctsOf (chunkLoop remote sched ⟨file, pos, ca, -1⟩).2.2)) := by
  constructor
  · intro meta localFinal tempFile sched hN
    unfold download_file_to_path_with_retries
    cases meta.id with
    | none => simp [pctsOf]
    | some i =>
      by_cases hskip : should_skip_binary_file md5h localFinal meta.size
          meta.md5Checksum
      · rw [if_pos hskip]
        simp [pctsOf]
      · rw [if_neg hskip]
        exact (retryLoop_pcts md5h remote meta.md5Checksum MAX_FILE_RETRIES 1
          tempFile sched hN).1
  · intro sched file pos ca hN
    have hlp : (⟨file, pos, ca, -1⟩ : EngineState).lastPct ≤
        (pctOf (⟨file, pos, ca, -1⟩ : EngineState).pos remote.length : Int) := by
      show (-1 : Int) ≤ (pctOf pos remote.length : Int)
      calc (-1 : Int) ≤ 0 := by norm_num
        _ ≤ (pctOf pos remote.length : Int) := Int.natCast_nonneg _
    exact (chunkLoop_pcts remote sched ⟨file, pos, ca, -1⟩ hN hlp).1

theorem claim_C9_witness :
    List.Pairwise (· ≤ ·)
      (pctsOf (download_file_to_path_with_retries (fun _ => "m")
        ⟨some "f", some "f", none, some 3, none⟩ none none [0, 1, 2]
        [ChunkOutcome.ok]).2) :=
  (claim_C9 (fun _ => "m") [0, 1, 2]).1 ⟨some "f", some "f", none, some 3, none⟩
    none none [ChunkOutcome.ok] (by decide)

/-- C9 counterexample: a 3-byte download with one successful chunk delivers
the percentage sequence `[100, 100]` — the chunk loop reports 100 and the
completion path reports 100 again — so the same percentage value is
delivered twice (the claim's duplicate-suppression part is false as
stated). -/
theorem claim_C9_cex :
    pctsOf (download_file_to_path_with_retries (fun _ => "m")
        ⟨some "f", some "f", none, some 3, none⟩ none none [0, 1, 2]
        [ChunkOutcome.ok]).2 = [100, 100] ∧
    ¬(pctsOf (download_file_to_path_with_retries (fun _ => "m")
        ⟨some "f", some "f", none, some 3, none⟩ none none [0, 1, 2]
        [ChunkOutcome.ok]).2).Nodup := by
  constructor
  · decide
  · decide

/-- C2: the folder walk processes every sibling regardless of earlier
failures; a metadata or transfer exception while processing one child is
caught at the per-child level and recorded as exactly one
`{id, name, error}` ledger record (with the listing's id and name and the
exception's message), a successful child adds no record, a folder child
recurses; and concretely, a child that exhausts `MAX_FILE_RETRIES` yields
exactly one record while its next sibling is still processed. -/
theorem claim_C2 :
    (∀ (env : DriveEnv) (item : DriveItem) (rest : List DriveItem),
      download_folder_contents env (item :: rest) =
        ((download_child env item).1 ++ (download_folder_contents env rest).1,
          item.id :: ((download_child env item).2 ++
            (download_folder_contents env rest).2))) ∧
    (∀ (env : DriveEnv) (i nm mime : String) (cs : List DriveItem)
        (msg : String),
      env.metaOf i = Except.error msg →
      download_child env (DriveItem.mk i nm mime cs) = ([⟨i, nm, msg⟩], [])) ∧
    (∀ (env : DriveEnv) (i nm mime : String) (cs : List DriveItem)
        (meta : FileMeta) (msg : String),
      env.metaOf i = Except.ok meta →
      meta.mimeType ≠ some "application/vnd.google-apps.folder" →
      (dispatch_child_transfer env i meta).1 = FileRes.raised msg →
      download_child env (DriveItem.mk i nm mime cs) = ([⟨i, nm, msg⟩], [])) ∧
    (∀ (env : DriveEnv) (i nm mime : String) (cs : List DriveItem)
        (meta : FileMeta) (f : List Nat),
      env.metaOf i = Except.ok meta →
      meta.mimeType ≠ some "application/vnd.google-apps.folder" →
      (dispatch_child_transfer env i meta).1 = FileRes.ok f →
      download_child env (DriveItem.mk i nm mime cs) = ([], [])) ∧
    (∀ (env : DriveEnv) (i nm mime : String) (cs : List DriveItem)
        (meta : FileMeta),
      env.metaOf i = Except.ok meta →
      meta.mimeType = some "application/vnd.google-apps.folder" →
      download_child env (DriveItem.mk i nm mime cs) =
        download_folder_contents env cs) ∧
    (download_folder_contents envExhaust
        [DriveItem.mk "bad" "B" "text/plain" [],
          DriveItem.mk "good" "G" "text/plain" []] =
      ([⟨"bad", "B", "HttpError"⟩], ["bad", "good"])) := by
  refine ⟨?_, ?_, ?_, ?_, ?_, ?_⟩
  · intro env item rest
    rfl
  · intro env i nm mime cs msg h
    simp only [download_child, h]
  · intro env i nm mime cs meta msg hmeta hfold hres
    simp only [download_child, hmeta]
    rw [if_neg hfold]
    simp only [hres]
  · intro env i nm mime cs meta f hmeta hfold hres
    simp only [download_child, hmeta]
    rw [if_neg hfold]
    simp only [hres]
  · intro env i nm mime cs meta hmeta hfold
    simp only [download_child, hmeta]
    rw [if_pos hfold]
  · decide

theorem claim_C2_witness :
    download_child
      ⟨fun _ => Except.error "boom", fun _ => [], fun _ => [],
        fun _ => none, fun _ => none, fun _ => "m", false⟩
      (DriveItem.mk "x" "n" "text/plain" []) = ([⟨"x", "n", "boom"⟩], []) :=
  claim_C2.2.1 ⟨fun _ => Except.error "boom", fun _ => [], fun _ => [],
    fun _ => none, fun _ => none, fun _ => "m", false⟩ "x" "n" "text/plain"
    [] "boom" rfl

/-- C5 (amended): malformed metadata (a missing `id` key) propagates out of
the transfer engine immediately, with no retry, backoff or write activity;
but a non-retryable transport status such as a 403 permission denial is
treated like any transient `HttpError`: it consumes the full chunk-level
and file-level retry/backoff budgets (here 29 backoff sleeps and
`MAX_FILE_RETRIES` staging-file openings) before the failure propagates;
in both cases the folder walker records the entry in the failure ledger
and continues with the next sibling. -/
theorem claim_C5 :
    (∀ (md5h : List Nat → String) (nm mime : Option String) (sz : Option Nat)
        (md5c : Option String) (localFinal tempFile : Option (List Nat))
        (remote : List Nat) (sched : List ChunkOutcome),
      download_file_to_path_with_retries md5h ⟨none, nm, mime, sz, md5c⟩
          localFinal tempFile remote sched =
        (FileRes.raised "KeyError: id", [])) ∧
    ((download_file_to_path_with_retries (fun _ => "m")
        ⟨some "f", some "f", none, some 1, none⟩ none none [0]
        (List.replicate 30 (ChunkOutcome.httpErr (some 403)))).1 =
      FileRes.raised "HttpError" ∧
     (download_file_to_path_with_retries (fun _ => "m")
        ⟨some "f", some "f", none, some 1, none⟩ none none [0]
        (List.replicate 30 (ChunkOutcome.httpErr (some 403)))).2.countP
        isSleepEv = 29 ∧
     (download_file_to_path_with_retries (fun _ => "m")
        ⟨some "f", some "f", none, some 1, none⟩ none none [0]
        (List.replicate 30 (ChunkOutcome.httpErr (some 403)))).2.countP
        isOpenEv = MAX_FILE_RETRIES) ∧
    (download_folder_contents envPermDenied
        [DriveItem.mk "bad" "B" "text/plain" [],
          DriveItem.mk "good" "G" "text/plain" []] =
      ([⟨"bad", "B", "HttpError"⟩], ["bad", "good"])) := by
  refine ⟨?_, ⟨?_, ?_, ?_⟩, ?_⟩
  · intro md5h nm mime sz md5c localFinal tempFile remote sched
    rfl
  · decide
  · decide
  · decide
  · decide

/-- C5 counterexample: a permission-denied (HTTP 403) transport error does
not propagate immediately — the engine performs 29 backoff sleeps and all
`MAX_FILE_RETRIES` file attempts before the failure escapes, contradicting
"without consuming chunk-level or file-level retry/backoff budgets". -/
theorem claim_C5_cex :
    (download_file_to_path_with_retries (fun _ => "m")
        ⟨some "f", some "f", none, some 1, none⟩ none none [0]
        (List.replicate 30 (ChunkOutcome.httpErr (some 403)))).1 =
      FileRes.raised "HttpError" ∧
    (download_file_to_path_with_retries (fun _ => "m")
        ⟨some "f", some "f", none, some 1, none⟩ none none [0]
        (List.replicate 30 (ChunkOutcome.httpErr (some 403)))).2.countP
      isSleepEv = 29 ∧
    (29 : Nat) ≠ 0 := by
  refine ⟨?_, ?_, ?_⟩ <;> decide
